import Mathlib

/-!
Verification of the Task-Tracker collection manager (src/app/page.tsx).

The single source file is a React component.  We shallowly embed the parts
of it that carry behavioural meaning:

* the `Task` record and its status enum (`export interface Task` and
  `export type TaskStatus` at the bottom of the file);
* the four mutation handlers `handleSaveTask` (create / edit branches),
  `toggleStatus` and `deleteTask`, as pure functions on `List Task`;
* the persistence adapter `MOCK_API` (`getTasks` / `saveTasks` over
  `localStorage`), modelled as explicit state passing over an
  `Option Json` slot — the JSON text layer (`JSON.stringify` /
  `JSON.parse`) is modelled at the JSON-value level, since those are host
  builtins, not repository code;
* the save effect `useEffect(() => { if (tasks.length > 0)
  MOCK_API.saveTasks(tasks) }, [tasks])`;
* the derived view `filteredTasks` (search filter, status filter, sort).
  ES2019 requires `Array.prototype.sort` to be a stable sort consistent
  with the comparator, which is exactly `List.mergeSort` on the
  `comparator ≤ 0` relation.  The host functions `new Date(s).getTime()`
  and `String.prototype.localeCompare` are abstracted as parameters
  `dateMs : String → Int` and `localeCmp : String → String → Int`;
  ECMA-402 guarantees `localeCompare` induces a consistent total
  preorder, which appears as the `htot`/`htrans` hypotheses.
-/

namespace TaskTrack

/-- `export type TaskStatus = "pending" | "done"`. -/
inductive TaskStatus where
  | pending
  | done
deriving DecidableEq, Repr

/-- `export interface Task` : id, title, dueDate, status, createdAt. -/
structure Task where
  id : String
  title : String
  dueDate : String
  status : TaskStatus
  createdAt : Nat
deriving DecidableEq, Repr

/-- `export type TaskFilter = "all" | "pending" | "done"`. -/
inductive TaskFilter where
  | all
  | pending
  | done
deriving DecidableEq, Repr

/-- `export type TaskSort = "date" | "name"`. -/
inductive TaskSort where
  | date
  | name
deriving DecidableEq, Repr

/-- The `editingTask` branch of `handleSaveTask`:
`tasks.map((t) => (t.id === editingTask.id ? { ...t, title, dueDate } : t))`. -/
def updateTask (id title dueDate : String) (tasks : List Task) : List Task :=
  tasks.map fun t => if t.id = id then { t with title := title, dueDate := dueDate } else t

/-- The create branch of `handleSaveTask`: builds
`{ id: crypto.randomUUID(), title, dueDate, status: "pending", createdAt: Date.now() }`
and prepends it (`setTasks([newTask, ...tasks])`).  The id produced by the
external generator `crypto.randomUUID()` and the clock value `Date.now()`
are passed in as `newId` and `now`. -/
def createTask (newId : String) (now : Nat) (title dueDate : String) (tasks : List Task) : List Task :=
  { id := newId, title := title, dueDate := dueDate,
    status := TaskStatus.pending, createdAt := now } :: tasks

/-- `toggleStatus`:
`tasks.map((t) => (t.id === id ? { ...t, status: t.status === "pending" ? "done" : "pending" } : t))`. -/
def toggleStatus (id : String) (tasks : List Task) : List Task :=
  tasks.map fun t =>
    if t.id = id then
      { t with status := if t.status = TaskStatus.pending then TaskStatus.done else TaskStatus.pending }
    else t

/-- `deleteTask`: `tasks.filter((t) => t.id !== id)`. -/
def deleteTask (id : String) (tasks : List Task) : List Task :=
  tasks.filter fun t => t.id != id

/-! ## The store (`MOCK_API` over `localStorage`)

`localStorage` holds at most one value under the key `"task_tracker_data"`;
we model the slot as `Option Json` (the JSON value the stored text parses
to; `none` = no value stored).  `JSON.stringify`/`JSON.parse` are host
builtins, modelled at the JSON-value level by `encodeTasks`/`decodeTasks`. -/

/-- JSON values, as produced by `JSON.stringify` / consumed by `JSON.parse`. -/
inductive Json where
  | null
  | bool (b : Bool)
  | num (n : Int)
  | str (s : String)
  | arr (elems : List Json)
  | obj (fields : List (String × Json))

/-- The string a `TaskStatus` serializes to. -/
def statusStr : TaskStatus → String
  | TaskStatus.pending => "pending"
  | TaskStatus.done => "done"

/-- Reading a status string back. -/
def decodeStatus : String → Option TaskStatus
  | "pending" => some TaskStatus.pending
  | "done" => some TaskStatus.done
  | _ => none

/-- `JSON.stringify` of one task: an object with the five fields in
declaration order. -/
def encodeTask (t : Task) : Json :=
  Json.obj [("id", Json.str t.id), ("title", Json.str t.title),
    ("dueDate", Json.str t.dueDate), ("status", Json.str (statusStr t.status)),
    ("createdAt", Json.num (t.createdAt : Int))]

/-- `JSON.stringify` of the collection: a JSON array. -/
def encodeTasks (tasks : List Task) : Json :=
  Json.arr (tasks.map encodeTask)

/-- Field access on a parsed JSON object. -/
def jget (fields : List (String × Json)) (k : String) : Option Json :=
  (fields.find? fun p => p.1 == k).map fun p => p.2

/-- Reading one task record back out of a parsed JSON value. -/
def decodeTask (j : Json) : Option Task :=
  match j with
  | Json.obj fields =>
    match jget fields "id", jget fields "title", jget fields "dueDate",
      jget fields "status", jget fields "createdAt" with
    | some (Json.str i), some (Json.str ti), some (Json.str d),
      some (Json.str st), some (Json.num n) =>
      match decodeStatus st with
      | some s => some { id := i, title := ti, dueDate := d, status := s, createdAt := n.toNat }
      | none => none
    | _, _, _, _, _ => none
  | _ => none

/-- Reading the collection back out of a parsed JSON value. -/
def decodeTasks (j : Json) : List Task :=
  match j with
  | Json.arr elems => elems.filterMap decodeTask
  | _ => []

/-- `MOCK_API.getTasks`: returns `[]` when `window` is undefined; otherwise
reads the slot, returning `[]` when nothing is stored, and the parse of the
stored value otherwise. -/
def MOCK_API_getTasks (hasWindow : Bool) (slot : Option Json) : List Task :=
  if !hasWindow then []
  else
    match slot with
    | none => []
    | some j => decodeTasks j

/-- `MOCK_API.saveTasks`: overwrites the slot with the serialized
collection, regardless of what was stored before. -/
def MOCK_API_saveTasks (tasks : List Task) (_slot : Option Json) : Option Json :=
  some (encodeTasks tasks)

/-! ## The component state machine (mutation + save effect) -/

/-- Component state: the in-memory collection plus the storage slot. -/
structure AppState where
  tasks : List Task
  slot : Option Json

/-- The four mutations the UI can fire, with the externally supplied
values (`crypto.randomUUID()`, `Date.now()`, form fields) as payload. -/
inductive Mutation where
  | create (newId : String) (now : Nat) (title dueDate : String)
  | update (id title dueDate : String)
  | toggle (id : String)
  | delete (id : String)

/-- The in-memory effect of one mutation (the `setTasks` argument). -/
def applyMutation : Mutation → List Task → List Task
  | Mutation.create newId now title dueDate, ts => createTask newId now title dueDate ts
  | Mutation.update id title dueDate, ts => updateTask id title dueDate ts
  | Mutation.toggle id, ts => toggleStatus id ts
  | Mutation.delete id, ts => deleteTask id ts

/-- The save effect `useEffect(() => { if (tasks.length > 0)
MOCK_API.saveTasks(tasks) }, [tasks])`: it runs after `tasks` changes and
skips the save when the collection is empty. -/
def saveEffect (tasks : List Task) (slot : Option Json) : Option Json :=
  if tasks.length > 0 then MOCK_API_saveTasks tasks slot else slot

/-- One mutation followed by the save effect. -/
def stepMutation (m : Mutation) (s : AppState) : AppState :=
  let ts := applyMutation m s.tasks
  { tasks := ts, slot := saveEffect ts s.slot }

/-! ## The derived view (`filteredTasks`) -/

/-- `needle` is a prefix of `hay` (character lists). -/
def startsWith : List Char → List Char → Bool
  | [], _ => true
  | _ :: _, [] => false
  | a :: xs, b :: ys => a == b && startsWith xs ys

/-- `String.prototype.includes`: `needle` occurs contiguously in `hay`. -/
def occursIn (needle : List Char) : List Char → Bool
  | [] => startsWith needle []
  | b :: tl => startsWith needle (b :: tl) || occursIn needle tl

/-- `task.status === filter` for the overlapping union types
`TaskStatus` and `TaskFilter`. -/
def statusEqFilter : TaskStatus → TaskFilter → Bool
  | TaskStatus.pending, TaskFilter.pending => true
  | TaskStatus.done, TaskFilter.done => true
  | _, _ => false

/-- The filter predicate of `filteredTasks`:
`task.title.toLowerCase().includes(debouncedSearch.toLowerCase())`
conjoined with `filter === "all" || task.status === filter`. -/
def matchesTask (search : String) (filter : TaskFilter) (t : Task) : Bool :=
  occursIn search.toLower.toList t.title.toLower.toList &&
    (filter == TaskFilter.all || statusEqFilter t.status filter)

/-- The sort comparator of `filteredTasks`:
`sortBy === "date" ? new Date(a.dueDate).getTime() - new Date(b.dueDate).getTime()
               : a.title.localeCompare(b.title)`.
The host functions `new Date(s).getTime()` and `localeCompare` are the
parameters `dateMs` and `localeCmp`. -/
def cmpTasks (sortBy : TaskSort) (dateMs : String → Int)
    (localeCmp : String → String → Int) (a b : Task) : Int :=
  match sortBy with
  | TaskSort.date => dateMs a.dueDate - dateMs b.dueDate
  | TaskSort.name => localeCmp a.title b.title

/-- The "`a` sorts no later than `b`" relation a stable comparator sort
realizes: comparator value `≤ 0`. -/
def taskLe (sortBy : TaskSort) (dateMs : String → Int)
    (localeCmp : String → String → Int) (a b : Task) : Bool :=
  decide (cmpTasks sortBy dateMs localeCmp a b ≤ 0)

/-- `filteredTasks`: filter by search and status, then sort with the
comparator.  `Array.prototype.sort` (ES2019) is a stable sort consistent
with the comparator, modelled by `List.mergeSort`. -/
def visibleTasks (dateMs : String → Int) (localeCmp : String → String → Int)
    (search : String) (filter : TaskFilter) (sortBy : TaskSort)
    (tasks : List Task) : List Task :=
  (tasks.filter (matchesTask search filter)).mergeSort (taskLe sortBy dateMs localeCmp)

/-! ## Helper lemmas -/

/-- Serializing one task and reading it back is the identity. -/
lemma decodeTask_encodeTask (t : Task) : decodeTask (encodeTask t) = some t := by
  cases t with
  | mk i ti d s c => cases s <;> rfl

/-- Serializing the collection and reading it back is the identity. -/
lemma decodeTasks_encodeTasks (ts : List Task) : decodeTasks (encodeTasks ts) = ts := by
  induction ts with
  | nil => rfl
  | cons t ts ih =>
    simp only [decodeTasks, encodeTasks, List.map_cons, List.filterMap_cons,
      decodeTask_encodeTask]
    simpa [decodeTasks, encodeTasks] using ih

/-- `toggleStatus` on an id no task carries maps every task to itself. -/
lemma toggleStatus_absent (id : String) (ts : List Task)
    (h : ∀ t ∈ ts, t.id ≠ id) : toggleStatus id ts = ts := by
  have h2 : ts.map (fun t =>
      if t.id = id then
        { t with status := if t.status = TaskStatus.pending then TaskStatus.done else TaskStatus.pending }
      else t) = ts.map (fun t => t) :=
    List.map_congr_left fun t ht => by simp [h t ht]
  simp only [toggleStatus]
  rw [h2, List.map_id']

/-- `update` on an id no task carries maps every task to itself. -/
lemma updateTask_absent (id title dueDate : String) (ts : List Task)
    (h : ∀ t ∈ ts, t.id ≠ id) : updateTask id title dueDate ts = ts := by
  have h2 : ts.map (fun t =>
      if t.id = id then { t with title := title, dueDate := dueDate } else t) =
      ts.map (fun t => t) :=
    List.map_congr_left fun t ht => by simp [h t ht]
  simp only [updateTask]
  rw [h2, List.map_id']

/-- Stability of `mergeSort`, phrased on equivalence classes: filtering the
sorted output by a predicate whose elements are pairwise `le`-related gives
exactly the filtered input, so such elements keep their relative order. -/
lemma filter_mergeSort_eq {α : Type} (le : α → α → Bool)
    (htrans : ∀ a b c, le a b → le b c → le a c)
    (htot : ∀ a b, le a b || le b a)
    (p : α → Bool) (hkey : ∀ a b, p a → p b → le a b) (l : List α) :
    (l.mergeSort le).filter p = l.filter p := by
  have hpw : (l.filter p).Pairwise fun a b => le a b := by
    apply List.pairwise_of_forall_mem_list
    intro a ha b hb
    exact hkey a b (List.of_mem_filter ha) (List.of_mem_filter hb)
  have hsub : List.Sublist (l.filter p) (l.mergeSort le) :=
    List.sublist_mergeSort htrans htot hpw (List.filter_sublist l)
  have hsub2 : List.Sublist ((l.filter p).filter p) ((l.mergeSort le).filter p) :=
    hsub.filter p
  rw [List.filter_eq_self.mpr fun a ha => List.of_mem_filter ha] at hsub2
  have hperm : List.Perm ((l.mergeSort le).filter p) (l.filter p) :=
    (List.mergeSort_perm l le).filter p
  exact (hsub2.eq_of_length hperm.length_eq.symm).symm

/-! ## Concrete sample data used by witnesses and counterexamples -/

/-- A concrete task used in witnesses. -/
def sampleTask : Task :=
  { id := "a", title := "Write report", dueDate := "2025-01-10",
    status := TaskStatus.pending, createdAt := 0 }

/-- A second concrete task used in witnesses. -/
def sampleTask2 : Task :=
  { id := "b", title := "Buy milk", dueDate := "2025-01-05",
    status := TaskStatus.done, createdAt := 1 }

/-! ## Claims -/

/-- Claim C4: for every valid title and dueDate and every prior collection,
create produces a task whose id differs from every existing id (the id is
supplied by the external generator `crypto.randomUUID()`, whose uniqueness
guarantee is the hypothesis `hfresh`), whose status is `pending`, and the
task is prepended before all prior tasks, which are unchanged. -/
theorem create_fresh_pending_prepend (newId : String) (now : Nat)
    (title dueDate : String) (ts : List Task)
    (hfresh : newId ∉ ts.map Task.id) :
    ∃ t : Task, createTask newId now title dueDate ts = t :: ts ∧
      t.id = newId ∧ t.status = TaskStatus.pending ∧ t.createdAt = now ∧
      t.title = title ∧ t.dueDate = dueDate ∧ ∀ u ∈ ts, u.id ≠ t.id := by
  refine ⟨Task.mk newId title dueDate TaskStatus.pending now,
    rfl, rfl, rfl, rfl, rfl, rfl, ?_⟩
  intro u hu heq
  apply hfresh
  have hm : u.id ∈ ts.map Task.id := List.mem_map_of_mem Task.id hu
  rw [heq] at hm
  exact hm

/-- Witness for C4 at a concrete input. -/
theorem create_fresh_pending_prepend_witness :
    ("u" ∉ [sampleTask].map Task.id) ∧
    (∃ t : Task, createTask "u" 5 "New" "2025-02-01" [sampleTask] = t :: [sampleTask] ∧
      t.id = "u" ∧ t.status = TaskStatus.pending ∧ t.createdAt = 5 ∧
      t.title = "New" ∧ t.dueDate = "2025-02-01" ∧ ∀ u ∈ [sampleTask], u.id ≠ t.id) :=
  ⟨by decide, create_fresh_pending_prepend "u" 5 "New" "2025-02-01" [sampleTask] (by decide)⟩

/-- Claim C5: for an id present in the collection, update changes only the
title and dueDate of the tasks carrying that id, preserves id, status,
createdAt and position (same index), and leaves every other task exactly
unchanged. -/
theorem update_frame (id title dueDate : String) (ts : List Task)
    (_hmem : id ∈ ts.map Task.id) :
    (updateTask id title dueDate ts).length = ts.length ∧
    ∀ (i : Nat) (t : Task), ts[i]? = some t →
      ∃ t' : Task, (updateTask id title dueDate ts)[i]? = some t' ∧
        t'.id = t.id ∧ t'.status = t.status ∧ t'.createdAt = t.createdAt ∧
        (t.id = id → t'.title = title ∧ t'.dueDate = dueDate) ∧
        (t.id ≠ id → t' = t) := by
  constructor
  · simp [updateTask]
  · intro i t ht
    refine ⟨if t.id = id then { t with title := title, dueDate := dueDate } else t,
      ?_, ?_, ?_, ?_, ?_, ?_⟩
    · simp [updateTask, ht]
    · by_cases h : t.id = id <;> simp [h]
    · by_cases h : t.id = id <;> simp [h]
    · by_cases h : t.id = id <;> simp [h]
    · intro h
      simp [h]
    · intro h
      simp [h]

/-- Witness for C5 at a concrete input: updating `sampleTask` (index 0). -/
theorem update_frame_witness :
    ∃ t' : Task, (updateTask "a" "T2" "2025-03-01" [sampleTask, sampleTask2])[0]? = some t' ∧
      t'.id = sampleTask.id ∧ t'.status = sampleTask.status ∧
      t'.createdAt = sampleTask.createdAt ∧
      (sampleTask.id = "a" → t'.title = "T2" ∧ t'.dueDate = "2025-03-01") ∧
      (sampleTask.id ≠ "a" → t' = sampleTask) :=
  (update_frame "a" "T2" "2025-03-01" [sampleTask, sampleTask2] (by decide)).2 0 sampleTask rfl

/-- Claim C6: toggling twice is the identity on the whole collection, and a
single toggle flips the status of the tasks carrying the id between exactly
`pending` and `done` (and touches nothing else). -/
theorem toggle_involution_flip (id : String) (ts : List Task) :
    toggleStatus id (toggleStatus id ts) = ts ∧
    ∀ (i : Nat) (t : Task), ts[i]? = some t →
      ∃ t' : Task, (toggleStatus id ts)[i]? = some t' ∧
        t'.id = t.id ∧ t'.title = t.title ∧ t'.dueDate = t.dueDate ∧
        t'.createdAt = t.createdAt ∧
        (t.id = id →
          (t.status = TaskStatus.pending → t'.status = TaskStatus.done) ∧
          (t.status = TaskStatus.done → t'.status = TaskStatus.pending) ∧
          t'.status ≠ t.status) ∧
        (t.id ≠ id → t' = t) := by
  constructor
  · simp only [toggleStatus, List.map_map]
    apply List.map_id''
    intro t
    rcases t with ⟨i, ti, d, s, c⟩
    by_cases h : i = id <;> cases s <;> simp [Function.comp, h]
  · intro i t ht
    refine ⟨if t.id = id then
        { t with status := if t.status = TaskStatus.pending then TaskStatus.done else TaskStatus.pending }
      else t, ?_, ?_, ?_, ?_, ?_, ?_, ?_⟩
    · simp [toggleStatus, ht]
    · by_cases h : t.id = id <;> simp [h]
    · by_cases h : t.id = id <;> simp [h]
    · by_cases h : t.id = id <;> simp [h]
    · by_cases h : t.id = id <;> simp [h]
    · intro h
      cases hs : t.status <;> simp [h, hs]
    · intro h
      simp [h]

/-- Witness for C6 at a concrete input. -/
theorem toggle_involution_flip_witness :
    toggleStatus "a" (toggleStatus "a" [sampleTask]) = [sampleTask] ∧
    (∃ t' : Task, (toggleStatus "a" [sampleTask])[0]? = some t' ∧
      t'.id = sampleTask.id ∧ t'.title = sampleTask.title ∧
      t'.dueDate = sampleTask.dueDate ∧ t'.createdAt = sampleTask.createdAt ∧
      (sampleTask.id = "a" →
        (sampleTask.status = TaskStatus.pending → t'.status = TaskStatus.done) ∧
        (sampleTask.status = TaskStatus.done → t'.status = TaskStatus.pending) ∧
        t'.status ≠ sampleTask.status) ∧
      (sampleTask.id ≠ "a" → t' = sampleTask)) :=
  ⟨(toggle_involution_flip "a" [sampleTask]).1,
   (toggle_involution_flip "a" [sampleTask]).2 0 sampleTask rfl⟩

/-- Claim C7: after delete no task with the deleted id remains, and delete
on an absent id leaves the collection exactly unchanged (a no-op, not an
error). -/
theorem delete_removes_and_absent_noop (id : String) (ts : List Task) :
    (∀ t ∈ deleteTask id ts, t.id ≠ id) ∧
    ((∀ t ∈ ts, t.id ≠ id) → deleteTask id ts = ts) := by
  constructor
  · intro t ht
    simpa using List.of_mem_filter ht
  · intro h
    apply List.filter_eq_self.mpr
    intro a ha
    simpa using h a ha

/-- Witness for C7 at a concrete input. -/
theorem delete_removes_and_absent_noop_witness :
    (∀ t ∈ deleteTask "zz" [sampleTask], t.id ≠ "zz") ∧
    deleteTask "zz" [sampleTask] = [sampleTask] :=
  ⟨(delete_removes_and_absent_noop "zz" [sampleTask]).1,
   (delete_removes_and_absent_noop "zz" [sampleTask]).2 (by decide)⟩

/-- Claim C10: on an id absent from the collection, `toggleStatus` and the
edit branch of `handleSaveTask` complete without signaling any error (both
are total functions in the source: plain `map` calls, no throw) and leave
the collection exactly unchanged. -/
theorem absent_id_silent_noop (id title dueDate : String) (ts : List Task)
    (habs : id ∉ ts.map Task.id) :
    toggleStatus id ts = ts ∧ updateTask id title dueDate ts = ts := by
  have h : ∀ t ∈ ts, t.id ≠ id := by
    intro t ht heq
    exact habs (heq ▸ List.mem_map_of_mem Task.id ht)
  exact ⟨toggleStatus_absent id ts h, updateTask_absent id title dueDate ts h⟩

/-- Witness for C10 at a concrete input. -/
theorem absent_id_silent_noop_witness :
    ("zz" ∉ [sampleTask].map Task.id) ∧
    (toggleStatus "zz" [sampleTask] = [sampleTask] ∧
     updateTask "zz" "T" "D" [sampleTask] = [sampleTask]) :=
  ⟨by decide, absent_id_silent_noop "zz" "T" "D" [sampleTask] (by decide)⟩

/-- Counterexample to claim C3: the source signals no `NotFoundError`
anywhere (no error type, no throw; `toggleStatus` and the edit branch of
`handleSaveTask` are plain `map` calls, total functions).  On the absent id
`"zz"` both operations return normally with the collection unchanged
instead of failing. -/
theorem notfound_never_signaled_cex :
    toggleStatus "zz" [sampleTask] = [sampleTask] ∧
    updateTask "zz" "New title" "2025-02-02" [sampleTask] = [sampleTask] := by
  constructor <;> rfl

/-- Claim C3 as amended: for every id not present in the collection,
`update` and `toggleStatus` complete without signaling any error (they are
total) and leave the collection exactly unchanged. -/
theorem update_toggle_absent_unchanged (id title dueDate : String) (ts : List Task)
    (habs : ∀ t ∈ ts, t.id ≠ id) :
    updateTask id title dueDate ts = ts ∧ toggleStatus id ts = ts :=
  ⟨updateTask_absent id title dueDate ts habs, toggleStatus_absent id ts habs⟩

/-- Witness for the amended C3 at a concrete input. -/
theorem update_toggle_absent_unchanged_witness :
    updateTask "zz" "T" "D" [sampleTask2] = [sampleTask2] ∧
    toggleStatus "zz" [sampleTask2] = [sampleTask2] :=
  update_toggle_absent_unchanged "zz" "T" "D" [sampleTask2] (by decide)

/-- Counterexample to claim C2: the spec scenario `create("", "2025-01-01")`
does not fail — `handleSaveTask` validates nothing (no trimming, no
`ValidationError` anywhere in the source) — and the collection changes: a
task with the empty title is added. -/
theorem create_empty_title_cex :
    createTask "u1" 0 "" "2025-01-01" [] =
      [{ id := "u1", title := "", dueDate := "2025-01-01",
         status := TaskStatus.pending, createdAt := 0 }] := rfl

/-- Claim C2 as amended: create performs no validation; even for a title
that is empty after trimming (and any dueDate string, parsable or not) no
error is signaled, the collection changes, and a task carrying exactly the
given title is added. -/
theorem create_no_validation (newId : String) (now : Nat) (title dueDate : String)
    (ts : List Task) (_hempty : ∀ c ∈ title.toList, c.isWhitespace) :
    createTask newId now title dueDate ts ≠ ts ∧
    ∃ t ∈ createTask newId now title dueDate ts, t.title = title ∧ t.id = newId :=
  ⟨List.cons_ne_self _ _, ⟨_, List.mem_cons_self _ _, rfl, rfl⟩⟩

/-- Witness for the amended C2 at a concrete input. -/
theorem create_no_validation_witness :
    (∀ c ∈ String.toList " ", c.isWhitespace) ∧
    (createTask "u1" 0 " " "2025-01-01" [sampleTask] ≠ [sampleTask] ∧
     ∃ t ∈ createTask "u1" 0 " " "2025-01-01" [sampleTask], t.title = " " ∧ t.id = "u1") :=
  ⟨by decide, create_no_validation "u1" 0 " " "2025-01-01" [sampleTask] (by decide)⟩

/-- Claim C9: save followed by load returns exactly the saved collection
(same tasks, same order, same field values), and load with nothing
persisted returns the empty collection rather than an error. -/
theorem save_load_roundtrip :
    (∀ (ts : List Task) (slot : Option Json),
      MOCK_API_getTasks true (MOCK_API_saveTasks ts slot) = ts) ∧
    (∀ hw : Bool, MOCK_API_getTasks hw none = []) := by
  constructor
  · intro ts slot
    simp [MOCK_API_getTasks, MOCK_API_saveTasks, decodeTasks_encodeTasks]
  · intro hw
    cases hw <;> rfl

/-- Counterexample to claim C1: a mutation that empties the collection does
not reach the store.  Starting from one task (already persisted), deleting
it leaves the in-memory collection empty, but the save effect is guarded by
`tasks.length > 0`, so the persisted collection still holds the old task
and differs from the in-memory one. -/
theorem save_skipped_on_empty_cex :
    MOCK_API_getTasks true
        (stepMutation (Mutation.delete "a")
          { tasks := [sampleTask], slot := some (encodeTasks [sampleTask]) }).slot ≠
      (stepMutation (Mutation.delete "a")
        { tasks := [sampleTask], slot := some (encodeTasks [sampleTask]) }).tasks := by
  decide

/-- Claim C1 as amended: after every mutation whose post-mutation collection
is non-empty, save runs with the complete post-mutation collection, so the
persisted collection equals the in-memory one; a mutation that leaves the
collection empty skips the save and the storage slot keeps its previous
contents. -/
theorem save_after_mutation (m : Mutation) (s : AppState) :
    (applyMutation m s.tasks ≠ [] →
      MOCK_API_getTasks true (stepMutation m s).slot = (stepMutation m s).tasks) ∧
    (applyMutation m s.tasks = [] → (stepMutation m s).slot = s.slot) := by
  constructor
  · intro h
    have hlen : 0 < (applyMutation m s.tasks).length := List.length_pos.mpr h
    simp [stepMutation, saveEffect, hlen, MOCK_API_saveTasks, MOCK_API_getTasks,
      decodeTasks_encodeTasks]
  · intro h
    simp [stepMutation, saveEffect, h]

/-- Witness for the amended C1 at concrete inputs: a toggle on a singleton
collection persists it; a delete that empties the collection leaves the
slot untouched. -/
theorem save_after_mutation_witness :
    (applyMutation (Mutation.toggle "a") [sampleTask] ≠ []) ∧
    MOCK_API_getTasks true
        (stepMutation (Mutation.toggle "a") { tasks := [sampleTask], slot := none }).slot =
      (stepMutation (Mutation.toggle "a") { tasks := [sampleTask], slot := none }).tasks ∧
    (stepMutation (Mutation.delete "a")
        { tasks := [sampleTask], slot := some Json.null }).slot = some Json.null :=
  ⟨by decide,
   (save_after_mutation (Mutation.toggle "a") ⟨[sampleTask], none⟩).1 (by decide),
   (save_after_mutation (Mutation.delete "a") ⟨[sampleTask], some Json.null⟩).2 (by decide)⟩

/-- Claim C8: `visibleTasks` returns a permutation of the filtered tasks,
ordered ascending by parsed `dueDate` under the `date` key and ascending by
locale comparison of `title` under the `name` key, and the sort is stable:
tasks with equal sort keys (equal parsed `dueDate`, resp. locale-equivalent
titles) keep their relative collection order.  `htot`/`htrans` are the
consistent-comparator guarantee ECMA-402 gives for `localeCompare`. -/
theorem visible_sorted_stable (dateMs : String → Int) (localeCmp : String → String → Int)
    (htot : ∀ a b : String, localeCmp a b ≤ 0 ∨ localeCmp b a ≤ 0)
    (htrans : ∀ a b c : String, localeCmp a b ≤ 0 → localeCmp b c ≤ 0 → localeCmp a c ≤ 0)
    (search : String) (filter : TaskFilter) (sortBy : TaskSort) (tasks : List Task) :
    List.Perm (visibleTasks dateMs localeCmp search filter sortBy tasks)
      (tasks.filter (matchesTask search filter)) ∧
    (sortBy = TaskSort.date →
      (visibleTasks dateMs localeCmp search filter sortBy tasks).Pairwise
        fun a b => dateMs a.dueDate ≤ dateMs b.dueDate) ∧
    (sortBy = TaskSort.name →
      (visibleTasks dateMs localeCmp search filter sortBy tasks).Pairwise
        fun a b => localeCmp a.title b.title ≤ 0) ∧
    (sortBy = TaskSort.date → ∀ k : Int,
      (visibleTasks dateMs localeCmp search filter sortBy tasks).filter
          (fun t => dateMs t.dueDate == k) =
        (tasks.filter (matchesTask search filter)).filter (fun t => dateMs t.dueDate == k)) ∧
    (sortBy = TaskSort.name → ∀ s : String,
      (visibleTasks dateMs localeCmp search filter sortBy tasks).filter
          (fun t => localeCmp t.title s == 0 && localeCmp s t.title == 0) =
        (tasks.filter (matchesTask search filter)).filter
          (fun t => localeCmp t.title s == 0 && localeCmp s t.title == 0)) := by
  have htransLe : ∀ a b c : Task,
      taskLe sortBy dateMs localeCmp a b → taskLe sortBy dateMs localeCmp b c →
      taskLe sortBy dateMs localeCmp a c := by
    intro a b c hab hbc
    cases sortBy with
    | date =>
      simp only [taskLe, cmpTasks, decide_eq_true_eq] at *
      omega
    | name =>
      simp only [taskLe, cmpTasks, decide_eq_true_eq] at *
      exact htrans _ _ _ hab hbc
  have htotLe : ∀ a b : Task,
      taskLe sortBy dateMs localeCmp a b || taskLe sortBy dateMs localeCmp b a := by
    intro a b
    cases sortBy with
    | date =>
      simp only [taskLe, cmpTasks, Bool.or_eq_true, decide_eq_true_eq]
      omega
    | name =>
      simp only [taskLe, cmpTasks, Bool.or_eq_true, decide_eq_true_eq]
      exact htot _ _
  refine ⟨List.mergeSort_perm _ _, ?_, ?_, ?_, ?_⟩
  · intro hs
    subst hs
    refine (List.sorted_mergeSort htransLe htotLe _).imp ?_
    intro a b h
    simp only [taskLe, cmpTasks, decide_eq_true_eq] at h
    omega
  · intro hs
    subst hs
    refine (List.sorted_mergeSort htransLe htotLe _).imp ?_
    intro a b h
    simpa only [taskLe, cmpTasks, decide_eq_true_eq] using h
  · intro hs k
    subst hs
    apply filter_mergeSort_eq _ htransLe htotLe
    intro a b ha hb
    simp only [beq_iff_eq] at ha hb
    simp only [taskLe, cmpTasks, decide_eq_true_eq, ha, hb]
    omega
  · intro hs s
    subst hs
    apply filter_mergeSort_eq _ htransLe htotLe
    intro a b ha hb
    simp only [Bool.and_eq_true, beq_iff_eq] at ha hb
    simp only [taskLe, cmpTasks, decide_eq_true_eq]
    exact htrans a.title s b.title (le_of_eq ha.1) (le_of_eq hb.2)

/-- Witness for C8 at a concrete input, with a degenerate (but consistent)
locale comparator and date parser. -/
theorem visible_sorted_stable_witness :
    List.Perm (visibleTasks (fun _ => 0) (fun _ _ => 0) "" TaskFilter.all TaskSort.date
        [sampleTask, sampleTask2])
      ([sampleTask, sampleTask2].filter (matchesTask "" TaskFilter.all)) ∧
    (visibleTasks (fun _ => 0) (fun _ _ => 0) "" TaskFilter.all TaskSort.date
        [sampleTask, sampleTask2]).Pairwise
      (fun a b => (fun _ : String => (0 : Int)) a.dueDate ≤ (fun _ : String => (0 : Int)) b.dueDate) ∧
    (visibleTasks (fun _ => 0) (fun _ _ => 0) "" TaskFilter.all TaskSort.date
        [sampleTask, sampleTask2]).filter
        (fun t => (fun _ : String => (0 : Int)) t.dueDate == 0) =
      ([sampleTask, sampleTask2].filter (matchesTask "" TaskFilter.all)).filter
        (fun t => (fun _ : String => (0 : Int)) t.dueDate == 0) := by
  have h := visible_sorted_stable (fun _ => 0) (fun _ _ => 0)
    (fun a b => Or.inl (le_refl 0)) (fun a b c h1 h2 => le_trans h1 h2)
    "" TaskFilter.all TaskSort.date [sampleTask, sampleTask2]
  exact ⟨h.1, h.2.1 rfl, h.2.2.2.1 rfl 0⟩

end TaskTrack
